import Mathlib

/-!
Verification of the `graph-view` component: a shallow embedding of `src/components/graph-view.ts`: a Lit element that
incrementally fetches paginated graph data (`/data/{N}.json?address=...`),
merges each accepted page into an in-memory node/link graph, and renders it
with a force layout.  The embedding covers the state-bearing logic: the
merge (`updateGraph`), the fetch handler (`fetchGraphData`), the click
handler (`onNodeClick`), the page cursor (`currentFileIndex`), and the pure
presentation helpers (`getNodeColor`, `getNodeLabel`).  Rendering and the
physics simulation mutate only visual attributes and are not modelled.
-/

set_option linter.unusedVariables false

/-- Embeds `interface GraphNode`: a graph node keyed by `address`, with optional
display name (`address_name?`) and optional category (`type?`).  The
simulation-owned position fields (`x`, `y`, `vx`, `vy`, `fx`, `fy`) carry no
data-model content and are omitted. -/
structure GraphNode where
  address : String
  address_name : Option String := none
  type : Option String := none
deriving Repr, DecidableEq

/-- Embeds `interface GraphLink`: a directed link keyed by `id`, from address
`from` to address `to`.  The fields `from` and `to` are reserved words in
Lean, so they are spelled `from_` and `to_` here.  `source`/`target` are
the resolved node pointers that d3 reads; `updateGraph` overwrites them on
every merge (`undefined` before the first merge, hence `Option`). -/
structure GraphLink where
  id : String
  from_ : String
  to_ : String
  source : Option GraphNode := none
  target : Option GraphNode := none
deriving Repr, DecidableEq

/-- Embeds `interface GraphData`: the payload shape of one page, and also the shape
of the component's merged `graphData` state. -/
structure GraphData where
  nodes : List GraphNode := []
  links : List GraphLink := []
deriving Repr, DecidableEq

/-! ## A model of the JavaScript `Map` used by `updateGraph`

`updateGraph` uses `new Map(pairs)` / `map.has` / `map.set` /
`Array.from(map.values())`.  A JS `Map` preserves insertion order:
`set` on a fresh key appends, `set` on a present key updates the value in
place, and the constructor is equivalent to `set`-ing each pair in order.
We model it as a `List (String × α)` with exactly these semantics. -/

/-- Models `map.has(k)`. -/
def mapHas {α : Type} (m : List (String × α)) (k : String) : Bool :=
  m.any (fun p => p.1 == k)

/-- Models `map.set(k, v)`: update in place if the key is present, append
otherwise. -/
def mapSet {α : Type} (m : List (String × α)) (k : String) (v : α) :
    List (String × α) :=
  if mapHas m k then m.map (fun p => if p.1 == k then (k, v) else p)
  else m ++ [(k, v)]

/-- Models `new Map(l)`: `set` every pair in order, starting from empty. -/
def mapOfList {α : Type} (l : List (String × α)) : List (String × α) :=
  l.foldl (fun m p => mapSet m p.1 p.2) []

/-- The `newData.nodes.forEach(...)` / `newData.links.forEach(...)` loops of
`updateGraph`: for each element, `if (!map.has(key)) map.set(key, x)` —
insert keyed by `key x` only when the key is not already present. -/
def addNew {α : Type} (key : α → String) (m : List (String × α))
    (xs : List α) : List (String × α) :=
  xs.foldl (fun m x => if mapHas m (key x) then m else mapSet m (key x) x) m

/-! ## The component's state and operations -/

/-- The body of the `mergedLinks.forEach(...)` loop (lines 158–161):
`link.source = mergedNodes.find(n => n.address === link.from)` and likewise
for `target`/`to` (`Array.prototype.find` returns `undefined` when nothing
matches, i.e. `List.find? = none`). -/
def resolveLink (mergedNodes : List GraphNode) (link : GraphLink) : GraphLink :=
  { link with
    source := mergedNodes.find? (fun n => n.address == link.from_)
    target := mergedNodes.find? (fun n => n.address == link.to_) }

/-- Embeds `private updateGraph(newData: GraphData)` (lines 139–170), as a function
from the current `graphData` and the delta to the new `graphData`:
1. merge nodes keyed by `address`, keeping the existing node when the
   address is already present;
2. merge links keyed by `id`, keeping the existing link when the id is
   already present;
3. re-resolve every merged link's `source`/`target` against the freshly
   merged node list. -/
def updateGraph (graphData newData : GraphData) : GraphData :=
  let existingNodesMap :=
    mapOfList (graphData.nodes.map (fun n => (n.address, n)))
  let nodesMap := addNew GraphNode.address existingNodesMap newData.nodes
  let mergedNodes := nodesMap.map Prod.snd
  let existingLinksMap :=
    mapOfList (graphData.links.map (fun l => (l.id, l)))
  let linksMap := addNew GraphLink.id existingLinksMap newData.links
  let mergedLinks := (linksMap.map Prod.snd).map (resolveLink mergedNodes)
  { nodes := mergedNodes, links := mergedLinks }

/-- The component's mutable state relevant to the data flow: the merged
graph (`@state() graphData`) and the page cursor
(`private currentFileIndex = 1`). -/
structure GraphViewState where
  graphData : GraphData
  currentFileIndex : Nat
deriving Repr, DecidableEq

/-- The initial state: empty graph, `currentFileIndex = 1`. -/
def initialState : GraphViewState :=
  { graphData := { nodes := [], links := [] }, currentFileIndex := 1 }

/-- The outcome of `await fetch(url)` / `await resp.json()`, which is
external input to the component:
* `ok data` — 2xx response whose body parsed as `GraphData`;
* `notOk` — `!resp.ok` (non-2xx);
* `errorThrown` — the fetch or the JSON parse threw (network/parse
  error), landing in the `catch` block. -/
inductive FetchResult where
  | ok (data : GraphData)
  | notOk
  | errorThrown
deriving Repr, DecidableEq

/-- Embeds `private async fetchGraphData(fileIndex, address)` (lines 85–105) as a
state transition, parameterised by the fetch outcome.  A non-2xx response
and a thrown error are both only logged (`return` / `catch`): the state is
returned unchanged and nothing propagates to the caller.  On success the
page is accepted iff `data.links.some(link => link.from === address)`;
acceptance merges via `updateGraph` and runs `this.currentFileIndex++`;
rejection only logs. -/
def fetchGraphData (st : GraphViewState) (fileIndex : Nat) (address : String)
    (result : FetchResult) : GraphViewState :=
  match result with
  | .notOk => st
  | .errorThrown => st
  | .ok data =>
    if data.links.any (fun link => link.from_ == address) then
      { graphData := updateGraph st.graphData data
        currentFileIndex := st.currentFileIndex + 1 }
    else st

/-- Embeds `private async onNodeClick(d)` (lines 300–307): the fetch request
issued by a click, if any.  `if (this.currentFileIndex <= 3)` the component
calls `fetchGraphData(this.currentFileIndex, d.address)`; otherwise it does
nothing. -/
def onNodeClick (st : GraphViewState) (d : GraphNode) : Option (Nat × String) :=
  if st.currentFileIndex ≤ 3 then some (st.currentFileIndex, d.address) else none

/-- The hardcoded seed address passed in `firstUpdated()`. -/
def seedAddress : String := "0x2be59e62d811a1a8a25a937c4812313cf8bbe428"

/-- The state-changing events of a session: the initial seed fetch from
`firstUpdated()`, and a node click (which issues a fetch only when the
cursor is ≤ 3).  Each event carries the outcome of its fetch. -/
inductive Event where
  | initialFetch (result : FetchResult)
  | click (d : GraphNode) (result : FetchResult)
deriving Repr

/-- One event's effect on the component state.  A click with
`currentFileIndex > 3` issues no fetch, so the state is unchanged. -/
def step (st : GraphViewState) (e : Event) : GraphViewState :=
  match e with
  | .initialFetch r => fetchGraphData st st.currentFileIndex seedAddress r
  | .click d r =>
    if st.currentFileIndex ≤ 3 then
      fetchGraphData st st.currentFileIndex d.address r
    else st

/-- A whole session: the initial state driven by a list of events. -/
def run (events : List Event) : GraphViewState :=
  events.foldl step initialState

/-- Embeds `private getNodeColor(node)` (lines 251–266): `switch (node.type)` with
a fixed enumeration and default `'#666'` (a missing `type` is `undefined`,
which also falls to the default). -/
def getNodeColor (node : GraphNode) : String :=
  match node.type with
  | some "cex" => "orange"
  | some "stakingpool" => "purple"
  | some "token" => "green"
  | some "dao" => "blue"
  | some "gambling" => "red"
  | _ => "#666"

/-- Embeds `private getNodeLabel(node)` (lines 269–275):
`if (node.address_name) return node.address_name;` — in JavaScript both an
absent field (`undefined`) and the empty string are falsy — otherwise
`node.address.slice(0, 6) + '...' + node.address.slice(-4)`
(`slice(0, 6)` is `String.take 6`, `slice(-4)` is `String.takeRight 4`,
both total on short strings). -/
def getNodeLabel (node : GraphNode) : String :=
  match node.address_name with
  | some name =>
    if name = "" then node.address.take 6 ++ "..." ++ node.address.takeRight 4
    else name
  | none => node.address.take 6 ++ "..." ++ node.address.takeRight 4

/-! ## Lemmas about the `Map` model -/

section MapLemmas

variable {α : Type}

theorem mapHas_iff (m : List (String × α)) (k : String) :
    mapHas m k = true ↔ k ∈ m.map Prod.fst := by
  unfold mapHas
  rw [List.any_eq_true]
  constructor
  · rintro ⟨p, hp, h⟩
    exact List.mem_map.mpr ⟨p, hp, eq_of_beq h⟩
  · intro h
    obtain ⟨p, hp, h⟩ := List.mem_map.mp h
    subst h
    exact ⟨p, hp, beq_self_eq_true _⟩

theorem keys_mapSet_of_has (m : List (String × α)) (k : String) (v : α)
    (h : mapHas m k = true) :
    (mapSet m k v).map Prod.fst = m.map Prod.fst := by
  simp only [mapSet, h, if_true, List.map_map]
  apply List.map_congr_left
  intro p _
  by_cases hk : p.1 = k
  · simp [Function.comp, hk]
  · simp [Function.comp, hk, beq_iff_eq]

theorem keys_mapSet_of_not_has (m : List (String × α)) (k : String) (v : α)
    (h : mapHas m k = false) :
    (mapSet m k v).map Prod.fst = m.map Prod.fst ++ [k] := by
  simp [mapSet, h]

theorem mapSet_of_not_has (m : List (String × α)) (k : String) (v : α)
    (h : mapHas m k = false) :
    mapSet m k v = m ++ [(k, v)] := by
  simp [mapSet, h]

theorem mem_keys_mapSet (m : List (String × α)) (k a : String) (v : α)
    (h : a ∈ m.map Prod.fst) : a ∈ (mapSet m k v).map Prod.fst := by
  cases hk : mapHas m k
  · rw [keys_mapSet_of_not_has m k v hk]; exact List.mem_append_left _ h
  · rw [keys_mapSet_of_has m k v hk]; exact h

theorem keys_nodup_mapSet (m : List (String × α)) (k : String) (v : α)
    (h : (m.map Prod.fst).Nodup) : ((mapSet m k v).map Prod.fst).Nodup := by
  cases hk : mapHas m k
  · rw [keys_mapSet_of_not_has m k v hk]
    rw [List.nodup_append]
    refine ⟨h, List.nodup_singleton k, ?_⟩
    intro a ha hk'
    rw [List.mem_singleton] at hk'
    subst hk'
    rw [← mapHas_iff] at ha
    rw [ha] at hk
    exact Bool.noConfusion hk
  · rw [keys_mapSet_of_has m k v hk]; exact h

theorem addNew_cons {key : α → String} (m : List (String × α)) (x : α)
    (xs : List α) :
    addNew key m (x :: xs) =
      if mapHas m (key x) = true then addNew key m xs
      else addNew key (mapSet m (key x) x) xs := by
  by_cases h : mapHas m (key x) = true
  · simp [addNew, h]
  · simp [addNew, h]

theorem addNew_append {key : α → String} :
    ∀ (xs : List α) (m : List (String × α)), ∃ t, addNew key m xs = m ++ t
  | [], m => ⟨[], by simp [addNew]⟩
  | x :: xs, m => by
    rw [addNew_cons]
    by_cases h : mapHas m (key x) = true
    · rw [if_pos h]
      exact addNew_append xs m
    · rw [if_neg h, mapSet_of_not_has m (key x) x (by simpa using h)]
      obtain ⟨t, ht⟩ := addNew_append xs (m ++ [(key x, x)])
      exact ⟨(key x, x) :: t, by rw [ht, List.append_assoc]; rfl⟩

theorem addNew_of_all_has {key : α → String} :
    ∀ (xs : List α) (m : List (String × α)),
      (∀ x ∈ xs, mapHas m (key x) = true) → addNew key m xs = m
  | [], m, _ => rfl
  | x :: xs, m, h => by
    rw [addNew_cons, if_pos (h x (List.mem_cons_self x xs))]
    exact addNew_of_all_has xs m (fun y hy => h y (List.mem_cons_of_mem x hy))

theorem keys_nodup_addNew {key : α → String} :
    ∀ (xs : List α) (m : List (String × α)),
      (m.map Prod.fst).Nodup → ((addNew key m xs).map Prod.fst).Nodup
  | [], m, h => h
  | x :: xs, m, h => by
    rw [addNew_cons]
    by_cases hx : mapHas m (key x) = true
    · rw [if_pos hx]
      exact keys_nodup_addNew xs m h
    · rw [if_neg hx]
      exact keys_nodup_addNew xs _ (keys_nodup_mapSet m (key x) x h)

theorem mem_keys_addNew {key : α → String} (xs : List α)
    (m : List (String × α)) (a : String) (h : a ∈ m.map Prod.fst) :
    a ∈ (addNew key m xs).map Prod.fst := by
  obtain ⟨t, ht⟩ := addNew_append xs m
  rw [ht, List.map_append]
  exact List.mem_append_left _ h

/-- Every entry of the map holds a value whose `key` projection equals its
map key.  Both maps built by `updateGraph` maintain this, because every
insertion is `map.set(x.key, x)`. -/
def KeyedBy {α : Type} (key : α → String) (m : List (String × α)) : Prop :=
  ∀ p ∈ m, key p.2 = p.1

theorem keyedBy_mapSet {key : α → String} {m : List (String × α)}
    {k : String} {v : α} (hm : KeyedBy key m) (hv : key v = k) :
    KeyedBy key (mapSet m k v) := by
  intro p hp
  unfold mapSet at hp
  by_cases hk : mapHas m k = true
  · rw [if_pos hk] at hp
    obtain ⟨q, hq, hqp⟩ := List.mem_map.mp hp
    by_cases h1 : q.1 = k
    · rw [if_pos (beq_iff_eq.mpr h1)] at hqp
      rw [← hqp]
      exact hv
    · rw [if_neg (fun hb => h1 (eq_of_beq hb))] at hqp
      rw [← hqp]
      exact hm q hq
  · rw [if_neg hk] at hp
    rcases List.mem_append.mp hp with h | h
    · exact hm p h
    · rw [List.mem_singleton] at h
      subst h
      exact hv

theorem keyedBy_foldl_set {key : α → String} :
    ∀ (l m : List (String × α)), KeyedBy key m →
      (∀ p ∈ l, key p.2 = p.1) →
      KeyedBy key (l.foldl (fun m p => mapSet m p.1 p.2) m)
  | [], _, hm, _ => hm
  | p :: l, m, hm, hl => by
    rw [List.foldl_cons]
    exact keyedBy_foldl_set l _
      (keyedBy_mapSet hm (hl p (List.mem_cons_self p l)))
      (fun q hq => hl q (List.mem_cons_of_mem p hq))

theorem keyedBy_mapOfList {key : α → String} {l : List (String × α)}
    (hl : ∀ p ∈ l, key p.2 = p.1) : KeyedBy key (mapOfList l) :=
  keyedBy_foldl_set l [] (fun p hp => absurd hp (List.not_mem_nil p)) hl

theorem keyedBy_addNew {key : α → String} :
    ∀ (xs : List α) (m : List (String × α)), KeyedBy key m →
      KeyedBy key (addNew key m xs)
  | [], _, hm => hm
  | x :: xs, m, hm => by
    rw [addNew_cons]
    by_cases h : mapHas m (key x) = true
    · rw [if_pos h]
      exact keyedBy_addNew xs m hm
    · rw [if_neg h]
      exact keyedBy_addNew xs _ (keyedBy_mapSet hm rfl)

theorem foldl_set_eq_append :
    ∀ (l m : List (String × α)), ((m ++ l).map Prod.fst).Nodup →
      l.foldl (fun m p => mapSet m p.1 p.2) m = m ++ l
  | [], m, _ => by simp
  | (k, v) :: l, m, h => by
    rw [List.foldl_cons]
    have hk : mapHas m k = false := by
      rw [← Bool.not_eq_true, mapHas_iff]
      intro hmem
      rw [List.map_append, List.nodup_append] at h
      exact h.2.2 hmem (by simp)
    rw [mapSet_of_not_has m k v hk]
    have h' : (((m ++ [(k, v)]) ++ l).map Prod.fst).Nodup := by
      rw [List.append_assoc]
      simpa using h
    rw [foldl_set_eq_append l (m ++ [(k, v)]) h', List.append_assoc]
    rfl

theorem mapOfList_eq_self (l : List (String × α))
    (h : (l.map Prod.fst).Nodup) : mapOfList l = l := by
  unfold mapOfList
  have h0 := foldl_set_eq_append l [] (by simpa using h)
  simpa using h0

theorem mem_keys_foldl_set :
    ∀ (l m : List (String × α)) (a : String),
      a ∈ m.map Prod.fst ∨ a ∈ l.map Prod.fst →
      a ∈ (l.foldl (fun m p => mapSet m p.1 p.2) m).map Prod.fst
  | [], m, a, h => by
    rcases h with h | h
    · simpa using h
    · simp at h
  | p :: l, m, a, h => by
    rw [List.foldl_cons]
    apply mem_keys_foldl_set l _ a
    rcases h with h | h
    · exact Or.inl (mem_keys_mapSet m p.1 a p.2 h)
    · rw [List.map_cons, List.mem_cons] at h
      rcases h with h | h
      · subst h
        left
        cases hk : mapHas m p.1
        · rw [keys_mapSet_of_not_has m p.1 p.2 hk]
          simp
        · rw [keys_mapSet_of_has m p.1 p.2 hk]
          exact (mapHas_iff m p.1).mp hk
      · exact Or.inr h

theorem mem_keys_mapOfList (l : List (String × α)) (a : String)
    (h : a ∈ l.map Prod.fst) : a ∈ (mapOfList l).map Prod.fst :=
  mem_keys_foldl_set l [] a (Or.inr h)

theorem keys_nodup_foldl_set :
    ∀ (l m : List (String × α)), (m.map Prod.fst).Nodup →
      ((l.foldl (fun m p => mapSet m p.1 p.2) m).map Prod.fst).Nodup
  | [], _, h => h
  | (k, v) :: l, m, h => by
    rw [List.foldl_cons]
    exact keys_nodup_foldl_set l _ (keys_nodup_mapSet m k v h)

theorem keys_nodup_mapOfList (l : List (String × α)) :
    ((mapOfList l).map Prod.fst).Nodup :=
  keys_nodup_foldl_set l [] (by simp)

end MapLemmas

/-! ## Lemmas about `updateGraph` -/

/-- A name for the node map that `updateGraph g d` builds (its `let nodesMap`);
`(updateGraph g d).nodes` is its value list. -/
def nodesMapOf (g d : GraphData) : List (String × GraphNode) :=
  addNew GraphNode.address
    (mapOfList (g.nodes.map (fun n => (n.address, n)))) d.nodes

/-- A name for the link map that `updateGraph g d` builds (its `let linksMap`). -/
def linksMapOf (g d : GraphData) : List (String × GraphLink) :=
  addNew GraphLink.id
    (mapOfList (g.links.map (fun l => (l.id, l)))) d.links

theorem updateGraph_nodes_eq (g d : GraphData) :
    (updateGraph g d).nodes = (nodesMapOf g d).map Prod.snd := rfl

theorem updateGraph_links_eq (g d : GraphData) :
    (updateGraph g d).links =
      ((linksMapOf g d).map Prod.snd).map
        (resolveLink ((updateGraph g d).nodes)) := rfl

theorem map_key_of_keyedBy {α : Type} {key : α → String}
    {m : List (String × α)} (h : KeyedBy key m) :
    (m.map Prod.snd).map key = m.map Prod.fst := by
  rw [List.map_map]
  exact List.map_congr_left (fun p hp => h p hp)

theorem keyedBy_nodesMapOf (g d : GraphData) :
    KeyedBy GraphNode.address (nodesMapOf g d) :=
  keyedBy_addNew d.nodes _ (keyedBy_mapOfList (by
    intro p hp
    obtain ⟨n, _, rfl⟩ := List.mem_map.mp hp
    rfl))

theorem keyedBy_linksMapOf (g d : GraphData) :
    KeyedBy GraphLink.id (linksMapOf g d) :=
  keyedBy_addNew d.links _ (keyedBy_mapOfList (by
    intro p hp
    obtain ⟨l, _, rfl⟩ := List.mem_map.mp hp
    rfl))

theorem updateGraph_nodes_addresses (g d : GraphData) :
    (updateGraph g d).nodes.map GraphNode.address =
      (nodesMapOf g d).map Prod.fst := by
  rw [updateGraph_nodes_eq]
  exact map_key_of_keyedBy (keyedBy_nodesMapOf g d)

theorem updateGraph_links_ids (g d : GraphData) :
    (updateGraph g d).links.map GraphLink.id =
      (linksMapOf g d).map Prod.fst := by
  rw [updateGraph_links_eq, List.map_map]
  have h1 : (GraphLink.id ∘ resolveLink ((updateGraph g d).nodes)) =
      GraphLink.id := rfl
  rw [h1]
  exact map_key_of_keyedBy (keyedBy_linksMapOf g d)

theorem updateGraph_nodes_address_nodup (g d : GraphData) :
    ((updateGraph g d).nodes.map GraphNode.address).Nodup := by
  rw [updateGraph_nodes_addresses]
  exact keys_nodup_addNew _ _ (keys_nodup_mapOfList _)

theorem pairs_fst_nodes (nodes : List GraphNode) :
    (nodes.map (fun n => (n.address, n))).map Prod.fst =
      nodes.map GraphNode.address := by
  rw [List.map_map]
  rfl

theorem pairs_snd_nodes (nodes : List GraphNode) :
    (nodes.map (fun n => (n.address, n))).map Prod.snd = nodes := by
  rw [List.map_map]
  exact List.map_id nodes

theorem pairs_fst_links (links : List GraphLink) :
    (links.map (fun l => (l.id, l))).map Prod.fst =
      links.map GraphLink.id := by
  rw [List.map_map]
  rfl

theorem pairs_snd_links (links : List GraphLink) :
    (links.map (fun l => (l.id, l))).map Prod.snd = links := by
  rw [List.map_map]
  exact List.map_id links

theorem find?_address_spec (nodes : List GraphNode) (a : String) :
    ((∃ n ∈ nodes, n.address = a) →
      ∃ n ∈ nodes, n.address = a ∧
        nodes.find? (fun n => n.address == a) = some n) ∧
    ((∀ n ∈ nodes, n.address ≠ a) →
      nodes.find? (fun n => n.address == a) = none) := by
  constructor
  · rintro ⟨n0, hn0, ha0⟩
    cases hfind : nodes.find? (fun n => n.address == a) with
    | none =>
      have h0 := List.find?_eq_none.mp hfind n0 hn0
      simp [ha0] at h0
    | some n =>
      refine ⟨n, List.mem_of_find?_eq_some hfind, ?_, rfl⟩
      have h1 := List.find?_some hfind
      exact eq_of_beq h1
  · intro h
    rw [List.find?_eq_none]
    intro n hn hbeq
    exact h n hn (eq_of_beq hbeq)

/-! ## Lemmas about `fetchGraphData`, the cursor and clicks -/

theorem links_any_iff (data : GraphData) (address : String) :
    data.links.any (fun link => link.from_ == address) = true ↔
      ∃ l ∈ data.links, l.from_ = address := by
  rw [List.any_eq_true]
  constructor
  · rintro ⟨l, hl, hb⟩
    exact ⟨l, hl, eq_of_beq hb⟩
  · rintro ⟨l, hl, hb⟩
    subst hb
    exact ⟨l, hl, beq_self_eq_true _⟩

theorem fetchGraphData_ok_accepted (st : GraphViewState) (fileIndex : Nat)
    (address : String) (data : GraphData)
    (h : data.links.any (fun link => link.from_ == address) = true) :
    fetchGraphData st fileIndex address (FetchResult.ok data) =
      { graphData := updateGraph st.graphData data
        currentFileIndex := st.currentFileIndex + 1 } := by
  simp only [fetchGraphData]
  rw [if_pos h]

theorem fetchGraphData_ok_rejected (st : GraphViewState) (fileIndex : Nat)
    (address : String) (data : GraphData)
    (h : ¬ data.links.any (fun link => link.from_ == address) = true) :
    fetchGraphData st fileIndex address (FetchResult.ok data) = st := by
  simp only [fetchGraphData]
  rw [if_neg h]

theorem fetchGraphData_cfi_le (st : GraphViewState) (fileIndex : Nat)
    (address : String) (r : FetchResult) :
    st.currentFileIndex ≤ (fetchGraphData st fileIndex address r).currentFileIndex := by
  cases r with
  | ok data =>
    by_cases h : data.links.any (fun link => link.from_ == address) = true
    · rw [fetchGraphData_ok_accepted st fileIndex address data h]
      exact Nat.le_succ _
    · rw [fetchGraphData_ok_rejected st fileIndex address data h]
  | notOk => exact Nat.le_refl _
  | errorThrown => exact Nat.le_refl _

theorem step_cfi_le (st : GraphViewState) (e : Event) :
    st.currentFileIndex ≤ (step st e).currentFileIndex := by
  cases e with
  | initialFetch r => exact fetchGraphData_cfi_le st st.currentFileIndex seedAddress r
  | click d r =>
    by_cases h : st.currentFileIndex ≤ 3
    · simp only [step, if_pos h]
      exact fetchGraphData_cfi_le st st.currentFileIndex d.address r
    · simp only [step, if_neg h]
      exact Nat.le_refl _

theorem foldl_step_cfi_le :
    ∀ (more : List Event) (st : GraphViewState),
      st.currentFileIndex ≤ (more.foldl step st).currentFileIndex
  | [], _ => Nat.le_refl _
  | e :: more, st =>
    Nat.le_trans (step_cfi_le st e) (foldl_step_cfi_le more (step st e))

/-- Claim C1: For every fetched page whose response is successful, the page is
accepted (merged into the graph via `updateGraph` and the page cursor
incremented) if and only if at least one link in the page's `links` array
has its `from` field equal to the queried address; when no such link
exists, the page is discarded and both the graph and the page cursor are
left unchanged. -/
theorem fetchGraphData_accept_iff (st : GraphViewState) (fileIndex : Nat)
    (address : String) (data : GraphData) :
    (fetchGraphData st fileIndex address (FetchResult.ok data) =
        { graphData := updateGraph st.graphData data
          currentFileIndex := st.currentFileIndex + 1 } ↔
      ∃ l ∈ data.links, l.from_ = address) ∧
    ((¬ ∃ l ∈ data.links, l.from_ = address) →
      fetchGraphData st fileIndex address (FetchResult.ok data) = st) := by
  by_cases h : data.links.any (fun link => link.from_ == address) = true
  · refine ⟨iff_of_true (fetchGraphData_ok_accepted st fileIndex address data h)
      ((links_any_iff data address).mp h), ?_⟩
    intro hne
    exact absurd ((links_any_iff data address).mp h) hne
  · have hred := fetchGraphData_ok_rejected st fileIndex address data h
    have hnot : ¬ ∃ l ∈ data.links, l.from_ = address :=
      fun he => h ((links_any_iff data address).mpr he)
    refine ⟨iff_of_false ?_ hnot, fun _ => hred⟩
    intro heq
    rw [hred] at heq
    have hc := congrArg GraphViewState.currentFileIndex heq
    simp only [] at hc
    omega

/-- Fixtures for the witness theorems below: a page for address `"A"` with
two nodes and one link from `"A"` to `"B"`, and a page whose only link has
`from = "X"`. -/
def nodeA : GraphNode := { address := "A" }

def nodeB : GraphNode := { address := "B" }

def linkAB : GraphLink := { id := "l1", from_ := "A", to_ := "B" }

def pageAB : GraphData := { nodes := [nodeA, nodeB], links := [linkAB] }

def pageX : GraphData :=
  { nodes := [nodeA], links := [{ id := "l2", from_ := "X", to_ := "A" }] }

theorem fetchGraphData_accept_iff_witness :
    fetchGraphData initialState 1 "A" (FetchResult.ok pageAB) =
      { graphData := updateGraph initialState.graphData pageAB
        currentFileIndex := 2 } ∧
    fetchGraphData initialState 1 "A" (FetchResult.ok pageX) = initialState :=
  ⟨(fetchGraphData_accept_iff initialState 1 "A" pageAB).1.mpr
      ⟨linkAB, by decide, rfl⟩,
   (fetchGraphData_accept_iff initialState 1 "A" pageX).2 (by decide)⟩

/-- Claim C5: The page cursor is initialized to 1, is never reset or
decremented for the lifetime of the session (it is monotone over every
event and every session run), and is incremented by exactly one only when
a fetched page is accepted — the fetch succeeded and at least one of the
page's links has `from` equal to the queried address; in every other
outcome (fetch failure, rejected page) it is unchanged. -/
theorem currentFileIndex_lifecycle :
    initialState.currentFileIndex = 1 ∧
    (∀ (st : GraphViewState) (fileIndex : Nat) (address : String)
        (data : GraphData),
      ((∃ l ∈ data.links, l.from_ = address) →
        (fetchGraphData st fileIndex address
            (FetchResult.ok data)).currentFileIndex =
          st.currentFileIndex + 1) ∧
      ((¬ ∃ l ∈ data.links, l.from_ = address) →
        (fetchGraphData st fileIndex address
            (FetchResult.ok data)).currentFileIndex = st.currentFileIndex)) ∧
    (∀ (st : GraphViewState) (fileIndex : Nat) (address : String),
      (fetchGraphData st fileIndex address
          FetchResult.notOk).currentFileIndex = st.currentFileIndex ∧
      (fetchGraphData st fileIndex address
          FetchResult.errorThrown).currentFileIndex = st.currentFileIndex) ∧
    (∀ (st : GraphViewState) (e : Event),
      st.currentFileIndex ≤ (step st e).currentFileIndex) ∧
    (∀ (events more : List Event),
      (run events).currentFileIndex ≤ (run (events ++ more)).currentFileIndex) := by
  refine ⟨rfl, ?_, fun _ _ _ => ⟨rfl, rfl⟩, step_cfi_le, ?_⟩
  · intro st fileIndex address data
    constructor
    · intro he
      rw [fetchGraphData_ok_accepted st fileIndex address data
        ((links_any_iff data address).mpr he)]
    · intro hne
      rw [fetchGraphData_ok_rejected st fileIndex address data
        (fun h => hne ((links_any_iff data address).mp h))]
  · intro events more
    unfold run
    rw [List.foldl_append]
    exact foldl_step_cfi_le more (events.foldl step initialState)

theorem currentFileIndex_lifecycle_witness :
    (fetchGraphData initialState 1 "A" (FetchResult.ok pageAB)).currentFileIndex = 2 ∧
    (fetchGraphData initialState 1 "A" (FetchResult.ok pageX)).currentFileIndex = 1 :=
  ⟨(currentFileIndex_lifecycle.2.1 initialState 1 "A" pageAB).1
      ⟨linkAB, by decide, rfl⟩,
   (currentFileIndex_lifecycle.2.1 initialState 1 "A" pageX).2 (by decide)⟩

/-- Claim C6: For every fetch whose response is non-success (non-2xx) or that
fails with a network or parse error, `fetchGraphData` performs no state
change: the resulting state — the graph's node and link collections and
the page cursor — is exactly the state before the call.  (The failure only
hits `console.error`; in the model `fetchGraphData` is a total function
into `GraphViewState`, reflecting that the `return` / `catch` paths let no
exception propagate to the caller.) -/
theorem fetchGraphData_failure_noop (st : GraphViewState) (fileIndex : Nat)
    (address : String) :
    fetchGraphData st fileIndex address FetchResult.notOk = st ∧
    fetchGraphData st fileIndex address FetchResult.errorThrown = st ∧
    (fetchGraphData st fileIndex address FetchResult.notOk).graphData.nodes =
      st.graphData.nodes ∧
    (fetchGraphData st fileIndex address FetchResult.notOk).graphData.links =
      st.graphData.links ∧
    (fetchGraphData st fileIndex address
        FetchResult.errorThrown).currentFileIndex = st.currentFileIndex :=
  ⟨rfl, rfl, rfl, rfl, rfl⟩

/-- Claim C7: Clicking a node issues a fetch for the current page cursor value
and the clicked node's address if and only if the cursor has not exceeded
the maximum of 3; in particular, for every node, a click when the cursor
equals 4 issues no fetch and changes no state. -/
theorem onNodeClick_policy (st : GraphViewState) (d : GraphNode) :
    (onNodeClick st d = some (st.currentFileIndex, d.address) ↔
      st.currentFileIndex ≤ 3) ∧
    (onNodeClick st d = none ↔ 3 < st.currentFileIndex) ∧
    (st.currentFileIndex = 4 →
      onNodeClick st d = none ∧
      ∀ r : FetchResult, step st (Event.click d r) = st) := by
  by_cases h : st.currentFileIndex ≤ 3
  · refine ⟨iff_of_true (by simp [onNodeClick, h]) h, ?_, ?_⟩
    · apply iff_of_false
      · simp [onNodeClick, h]
      · omega
    · intro h4
      omega
  · refine ⟨?_, iff_of_true (by simp [onNodeClick, h]) (by omega), ?_⟩
    · apply iff_of_false
      · simp [onNodeClick, h]
      · exact h
    · intro h4
      exact ⟨by simp [onNodeClick, h], fun r => by simp [step, h]⟩

/-- A state whose cursor has already reached 4, for the C7 witness. -/
def stateAt4 : GraphViewState :=
  { graphData := { nodes := [], links := [] }, currentFileIndex := 4 }

theorem onNodeClick_policy_witness :
    onNodeClick stateAt4 nodeB = none ∧
    step stateAt4 (Event.click nodeB FetchResult.notOk) = stateAt4 :=
  ⟨((onNodeClick_policy stateAt4 nodeB).2.2 rfl).1,
   ((onNodeClick_policy stateAt4 nodeB).2.2 rfl).2 FetchResult.notOk⟩

/-- Claim C2: After every merge (`updateGraph`), the merged node addresses
are pairwise distinct and, for every link in the merged link collection,
its resolved `source` pointer equals the merged node whose address equals
the link's `from` field and its resolved `target` pointer equals the
merged node whose address equals the link's `to` field, whenever such a
node exists in the merged node set; a link whose endpoint address is
absent from the merged node set is tolerated — its resolved pointer is
`none` (`undefined`) — and the merge does not fail (`updateGraph` is a
total function). -/
theorem updateGraph_link_resolution (g d : GraphData) :
    ((updateGraph g d).nodes.map GraphNode.address).Nodup ∧
    ∀ link ∈ (updateGraph g d).links,
      ((∃ n ∈ (updateGraph g d).nodes, n.address = link.from_) →
        ∃ n ∈ (updateGraph g d).nodes,
          n.address = link.from_ ∧ link.source = some n) ∧
      ((∀ n ∈ (updateGraph g d).nodes, n.address ≠ link.from_) →
        link.source = none) ∧
      ((∃ n ∈ (updateGraph g d).nodes, n.address = link.to_) →
        ∃ n ∈ (updateGraph g d).nodes,
          n.address = link.to_ ∧ link.target = some n) ∧
      ((∀ n ∈ (updateGraph g d).nodes, n.address ≠ link.to_) →
        link.target = none) := by
  refine ⟨updateGraph_nodes_address_nodup g d, ?_⟩
  intro link hlink
  rw [updateGraph_links_eq] at hlink
  obtain ⟨l0, hl0, rfl⟩ := List.mem_map.mp hlink
  have hsrc : (resolveLink ((updateGraph g d).nodes) l0).source =
      (updateGraph g d).nodes.find? (fun n => n.address == l0.from_) := rfl
  have htgt : (resolveLink ((updateGraph g d).nodes) l0).target =
      (updateGraph g d).nodes.find? (fun n => n.address == l0.to_) := rfl
  have hfrom : (resolveLink ((updateGraph g d).nodes) l0).from_ = l0.from_ := rfl
  have hto : (resolveLink ((updateGraph g d).nodes) l0).to_ = l0.to_ := rfl
  rw [hsrc, htgt, hfrom, hto]
  exact ⟨(find?_address_spec _ l0.from_).1, (find?_address_spec _ l0.from_).2,
    (find?_address_spec _ l0.to_).1, (find?_address_spec _ l0.to_).2⟩

/-- The empty graph, and the link of `pageAB` as it appears after the merge
(resolved against the merged node list). -/
def emptyGraphData : GraphData := { nodes := [], links := [] }

def linkABres : GraphLink :=
  { id := "l1", from_ := "A", to_ := "B",
    source := some nodeA, target := some nodeB }

theorem updateGraph_link_resolution_witness :
    ∃ n ∈ (updateGraph emptyGraphData pageAB).nodes,
      n.address = linkABres.from_ ∧ linkABres.source = some n :=
  ((updateGraph_link_resolution emptyGraphData pageAB).2 linkABres (by decide)).1
    ⟨nodeA, by decide, rfl⟩

/-- Claim C3: For every graph state (with the component's invariant that node
addresses and link ids are pairwise distinct — the state is always produced
from the key-deduplicating maps of `updateGraph`, or empty) and every delta
whose nodes all have addresses already present in the graph's node
collection and whose links all have ids already present in the graph's
link collection, merging that delta leaves the graph's node count and link
count unchanged. -/
theorem updateGraph_counts_known (g d : GraphData)
    (hgn : (g.nodes.map GraphNode.address).Nodup)
    (hgl : (g.links.map GraphLink.id).Nodup)
    (hdn : ∀ n ∈ d.nodes, n.address ∈ g.nodes.map GraphNode.address)
    (hdl : ∀ l ∈ d.links, l.id ∈ g.links.map GraphLink.id) :
    (updateGraph g d).nodes.length = g.nodes.length ∧
    (updateGraph g d).links.length = g.links.length := by
  have hmn : mapOfList (g.nodes.map (fun n => (n.address, n))) =
      g.nodes.map (fun n => (n.address, n)) :=
    mapOfList_eq_self _ (by rw [pairs_fst_nodes]; exact hgn)
  have hnm : nodesMapOf g d = g.nodes.map (fun n => (n.address, n)) := by
    unfold nodesMapOf
    rw [hmn]
    apply addNew_of_all_has
    intro n hn
    rw [mapHas_iff, pairs_fst_nodes]
    exact hdn n hn
  have hml : mapOfList (g.links.map (fun l => (l.id, l))) =
      g.links.map (fun l => (l.id, l)) :=
    mapOfList_eq_self _ (by rw [pairs_fst_links]; exact hgl)
  have hlm : linksMapOf g d = g.links.map (fun l => (l.id, l)) := by
    unfold linksMapOf
    rw [hml]
    apply addNew_of_all_has
    intro l hl
    rw [mapHas_iff, pairs_fst_links]
    exact hdl l hl
  constructor
  · rw [updateGraph_nodes_eq, hnm, pairs_snd_nodes]
  · rw [updateGraph_links_eq, hlm]
    simp only [List.length_map]

/-- A two-node, one-link graph state, for the C3/C4 witnesses. -/
def graphW : GraphData := { nodes := [nodeA, nodeB], links := [linkABres] }

theorem updateGraph_counts_known_witness :
    (updateGraph graphW pageAB).nodes.length = graphW.nodes.length ∧
    (updateGraph graphW pageAB).links.length = graphW.links.length :=
  updateGraph_counts_known graphW pageAB (by decide) (by decide)
    (by decide) (by decide)

/-- Claim C4: The graph grows monotonically under every merge: every node
address and every link id present before a merge is still present after
it (nothing is removed), and — for a graph state satisfying the
component's address-uniqueness invariant — when the delta contains a node
whose address already exists in the graph, the merged collection still
contains the existing node record itself (so its `address_name` and `type`
are unchanged), and the existing node is the unique merged node with that
address (first-seen wins, no attribute update). -/
theorem updateGraph_monotone_first_seen (g d : GraphData) :
    (∀ a ∈ g.nodes.map GraphNode.address,
        a ∈ (updateGraph g d).nodes.map GraphNode.address) ∧
    (∀ i ∈ g.links.map GraphLink.id,
        i ∈ (updateGraph g d).links.map GraphLink.id) ∧
    ((g.nodes.map GraphNode.address).Nodup →
      ∀ n ∈ g.nodes,
        n ∈ (updateGraph g d).nodes ∧
        ∀ n' ∈ (updateGraph g d).nodes, n'.address = n.address → n' = n) := by
  refine ⟨?_, ?_, ?_⟩
  · intro a ha
    rw [updateGraph_nodes_addresses]
    unfold nodesMapOf
    apply mem_keys_addNew
    apply mem_keys_mapOfList
    rw [pairs_fst_nodes]
    exact ha
  · intro i hi
    rw [updateGraph_links_ids]
    unfold linksMapOf
    apply mem_keys_addNew
    apply mem_keys_mapOfList
    rw [pairs_fst_links]
    exact hi
  · intro hnodup n hn
    have hmem : n ∈ (updateGraph g d).nodes := by
      rw [updateGraph_nodes_eq]
      unfold nodesMapOf
      rw [mapOfList_eq_self _ (by rw [pairs_fst_nodes]; exact hnodup)]
      obtain ⟨t, ht⟩ :=
        addNew_append d.nodes (g.nodes.map (fun n => (n.address, n)))
      rw [ht, List.map_append]
      apply List.mem_append_left
      rw [pairs_snd_nodes]
      exact hn
    refine ⟨hmem, ?_⟩
    intro n' hn' haddr
    exact List.inj_on_of_nodup_map (updateGraph_nodes_address_nodup g d)
      hn' hmem haddr

/-- A delta that re-announces address `"A"` with different attributes. -/
def deltaConflict : GraphData :=
  { nodes := [{ address := "A", address_name := some "Other",
                type := some "cex" }],
    links := [] }

theorem updateGraph_monotone_first_seen_witness :
    nodeA ∈ (updateGraph graphW deltaConflict).nodes ∧
    "l1" ∈ (updateGraph graphW deltaConflict).links.map GraphLink.id :=
  ⟨((updateGraph_monotone_first_seen graphW deltaConflict).2.2 (by decide)
      nodeA (by decide)).1,
   (updateGraph_monotone_first_seen graphW deltaConflict).2.1 "l1" (by decide)⟩

/-! ## Lemmas about the presentation helpers -/

/-- Claim C8: For every node, the rendered label equals the node's display
name when one is present (a non-empty `address_name` — the code tests JS
truthiness), and otherwise equals the first 6 characters of the address,
followed by `'...'`, followed by the last 4 characters of the address; in
particular, for address `0x2be59e62d811a1a8a25a937c4812313cf8bbe428` with
no display name, the label is `0x2be5...e428`. -/
theorem getNodeLabel_policy :
    (∀ (node : GraphNode) (name : String),
      node.address_name = some name → name ≠ "" → getNodeLabel node = name) ∧
    (∀ node : GraphNode, node.address_name = none →
      getNodeLabel node =
        node.address.take 6 ++ "..." ++ node.address.takeRight 4) ∧
    getNodeLabel { address := "0x2be59e62d811a1a8a25a937c4812313cf8bbe428" } =
      "0x2be5...e428" := by
  refine ⟨?_, ?_, ?_⟩
  · intro node name h hne
    simp [getNodeLabel, h, hne]
  · intro node h
    simp [getNodeLabel, h]
  · rfl

/-- A node with a non-empty display name, for the C8 witness. -/
def namedNode : GraphNode :=
  { address := "0xdead", address_name := some "Binance" }

theorem getNodeLabel_policy_witness :
    getNodeLabel namedNode = "Binance" ∧
    getNodeLabel { address := "0x2be59e62d811a1a8a25a937c4812313cf8bbe428" } =
      "0x2be5...e428" :=
  ⟨getNodeLabel_policy.1 namedNode "Binance" rfl (by decide),
   getNodeLabel_policy.2.2⟩

/-- Claim C9: For every node, the node color function maps category `cex` to
orange, `stakingpool` to purple, `token` to green, `dao` to blue,
`gambling` to red, and every other category — including a missing
category — to neutral gray (`'#666'`). -/
theorem getNodeColor_policy :
    (∀ node : GraphNode, node.type = some "cex" →
      getNodeColor node = "orange") ∧
    (∀ node : GraphNode, node.type = some "stakingpool" →
      getNodeColor node = "purple") ∧
    (∀ node : GraphNode, node.type = some "token" →
      getNodeColor node = "green") ∧
    (∀ node : GraphNode, node.type = some "dao" →
      getNodeColor node = "blue") ∧
    (∀ node : GraphNode, node.type = some "gambling" →
      getNodeColor node = "red") ∧
    (∀ node : GraphNode, node.type = none → getNodeColor node = "#666") ∧
    (∀ (node : GraphNode) (t : String), node.type = some t →
      t ≠ "cex" → t ≠ "stakingpool" → t ≠ "token" → t ≠ "dao" →
      t ≠ "gambling" → getNodeColor node = "#666") := by
  refine ⟨?_, ?_, ?_, ?_, ?_, ?_, ?_⟩
  · intro node h
    simp [getNodeColor, h]
  · intro node h
    simp [getNodeColor, h]
  · intro node h
    simp [getNodeColor, h]
  · intro node h
    simp [getNodeColor, h]
  · intro node h
    simp [getNodeColor, h]
  · intro node h
    simp [getNodeColor, h]
  · intro node t h h1 h2 h3 h4 h5
    simp only [getNodeColor, h]
    split <;> simp_all

theorem getNodeColor_policy_witness :
    getNodeColor { address := "A", type := some "token" } = "green" ∧
    getNodeColor { address := "A", type := some "unknown-category" } = "#666" ∧
    getNodeColor { address := "A" } = "#666" :=
  ⟨getNodeColor_policy.2.2.1 _ rfl,
   getNodeColor_policy.2.2.2.2.2.2 _ "unknown-category" rfl (by decide)
     (by decide) (by decide) (by decide) (by decide),
   getNodeColor_policy.2.2.2.2.2.1 _ rfl⟩

/-- Claim C10: For every node whose display name field is present but equal
to the empty string, the rendered label is the truncated address form
(first 6 characters, `'...'`, last 4 characters), not the empty display
name: `getNodeLabel` treats an empty-string display name the same as an
absent one (the JS truthiness test `if (node.address_name)` is false for
`""`). -/
theorem getNodeLabel_empty_name (node : GraphNode)
    (h : node.address_name = some "") :
    getNodeLabel node =
      node.address.take 6 ++ "..." ++ node.address.takeRight 4 := by
  simp [getNodeLabel, h]

theorem getNodeLabel_empty_name_witness :
    getNodeLabel { address := "0x2be59e62d811a1a8a25a937c4812313cf8bbe428",
                   address_name := some "" } = "0x2be5...e428" := by
  rw [getNodeLabel_empty_name
    { address := "0x2be59e62d811a1a8a25a937c4812313cf8bbe428",
      address_name := some "" } rfl]
  rfl
